import Mathlib

/-!
Verification development for the USASpendPipeline repository
(src/Full_Model_Debug.py, src/USAspendV1.py, src/Test.py).

The scripts manipulate JSON values (Python dicts/lists/scalars as decoded by
`resp.json()`).  We embed those values as the inductive type `JVal` below,
with Python truthiness (`if not x`), `dict.get` with a default, and the
`or` operator modelled explicitly.  Numbers are embedded as `Int`; the
pipeline never computes with numeric field values, it only passes them
through, so the exact numeric type is irrelevant to every claim.
-/

namespace USASpend

mutual

/-- A JSON value as decoded by `resp.json()` in the Python source. -/
inductive JVal where
  | null
  | bool (b : Bool)
  | num (n : Int)
  | str (s : String)
  | arr (elems : JArr)
  | obj (fields : JObj)
  deriving DecidableEq

/-- A JSON array (list of values). -/
inductive JArr where
  | nil
  | cons (hd : JVal) (tl : JArr)
  deriving DecidableEq

/-- A JSON object (ordered key/value fields, as a Python dict). -/
inductive JObj where
  | nil
  | cons (key : String) (val : JVal) (tl : JObj)
  deriving DecidableEq

end

/-- Convert an embedded JSON array to a Lean list. -/
def JArr.toList : JArr → List JVal
  | .nil => []
  | .cons h t => h :: t.toList

/-- Build an embedded JSON array from a Lean list. -/
def JArr.ofList : List JVal → JArr
  | [] => .nil
  | h :: t => .cons h (JArr.ofList t)

/-- Build an embedded JSON object from a list of key/value pairs. -/
def JObj.ofList : List (String × JVal) → JObj
  | [] => .nil
  | (k, v) :: t => .cons k v (JObj.ofList t)

/-- First value stored under a key, if any (Python dict lookup; decoded JSON
objects have no duplicate keys, so first-match is dict semantics). -/
def JObj.find? : JObj → String → Option JVal
  | .nil, _ => none
  | .cons k v t, key => if k = key then some v else t.find? key

/-- Python `d.get(k, dflt)`.  The source only applies `.get` to values that
are dicts at runtime; on a non-object value we return the default. -/
def JVal.getD (v : JVal) (key : String) (dflt : JVal) : JVal :=
  match v with
  | .obj o => (o.find? key).getD dflt
  | _ => dflt

/-- Python `d.get(k)`: `None` when the key is absent. -/
def JVal.get (v : JVal) (key : String) : JVal :=
  v.getD key .null

/-- Python truthiness of a JSON value: `None`, `False`, `0`, `""`, `[]` and
`{}` are falsy, everything else truthy. -/
def JVal.truthy : JVal → Bool
  | .null => false
  | .bool b => b
  | .num n => n != 0
  | .str s => s != ""
  | .arr .nil => false
  | .arr _ => true
  | .obj .nil => false
  | .obj _ => true

/-- Python `a or b` on JSON values. -/
def pyOr (a b : JVal) : JVal :=
  if a.truthy then a else b

/-- Python `sep.join parts` (all parts are strings). -/
def pyJoin (sep : String) : List String → String
  | [] => ""
  | [s] => s
  | s :: rest => s ++ sep ++ pyJoin sep rest

/-- String payload of a JSON value.  `", ".join` in `flatten_location` is
applied to the truthy address-line values; per the search endpoint those are
strings (a truthy non-string would raise `TypeError` in Python). -/
def JVal.asString : JVal → String
  | .str s => s
  | _ => ""

/-! ### `flatten_location` (src/Full_Model_Debug.py lines 86-112) -/

/-- The flattened location dict returned by `flatten_location`. -/
structure LocFlat where
  Address : JVal
  City : JVal
  StateName : JVal
  StateCode : JVal
  Country : JVal
  deriving DecidableEq

/-- `flatten_location(loc)` from src/Full_Model_Debug.py lines 86-112. -/
def flatten_location (loc : JVal) : LocFlat :=
  if ¬ loc.truthy then
    { Address := .null, City := .null, StateName := .null,
      StateCode := .null, Country := .null }
  else
    let addr_parts : List JVal :=
      [loc.get "address_line1", loc.get "address_line2", loc.get "address_line3"]
    let address : String :=
      pyJoin ", " ((addr_parts.filter JVal.truthy).map JVal.asString)
    { Address := pyOr (.str address) .null
      City := loc.get "city_name"
      StateName := loc.get "state_name"
      StateCode := loc.get "state_code"
      Country := loc.get "country_name" }

/-! ### Fact rows (src/Full_Model_Debug.py lines 144-155) -/

/-- One `fact_awards` row (the dict literal built in the loop at
src/Full_Model_Debug.py lines 146-155). -/
structure FactAward where
  AwardId : JVal
  RecipientId : JVal
  AwardAmount : JVal
  StartDate : JVal
  EndDate : JVal
  AwardingAgencyCode : JVal
  AwardingSubAgencyCode : JVal
  deriving DecidableEq

/-- Body of the fact-row loop (src/Full_Model_Debug.py lines 146-155). -/
def mkFactAward (rec : JVal) : FactAward :=
  { AwardId := rec.get "Award ID"
    RecipientId := rec.get "recipient_id"
    AwardAmount := rec.get "Award Amount"
    StartDate := rec.get "Start Date"
    EndDate := rec.get "End Date"
    AwardingAgencyCode := rec.get "Awarding Agency Code"
    AwardingSubAgencyCode := rec.get "Awarding Sub Agency Code" }

/-- `fact_awards` accumulated over `all_raw`
(src/Full_Model_Debug.py lines 145-155). -/
def fact_awards (all_raw : List JVal) : List FactAward :=
  all_raw.map mkFactAward

/-! ### Dimension tables (src/Full_Model_Debug.py lines 157-211)

The three Python dicts `recipients_by_id`, `subagencies_by_code` and
`agencies_by_code` are embedded as ordered association lists: a Python dict
keeps insertion order, updating an existing key keeps its position, and a
new key is appended. -/

/-- Python dict lookup `t.get(k)` on a table keyed by JSON values. -/
def lookupTab {α : Type} (k : JVal) : List (JVal × α) → Option α
  | [] => none
  | (k', v) :: t => if k' = k then some v else lookupTab k t

/-- Python dict assignment `t[k] = v`: replace in place if the key exists,
otherwise append. -/
def upsert {α : Type} (k : JVal) (v : α) : List (JVal × α) → List (JVal × α)
  | [] => [(k, v)]
  | (k', v') :: t => if k' = k then (k', v) :: t else (k', v') :: upsert k v t

/-- The keys of a table, in insertion order. -/
def tabKeys {α : Type} (t : List (JVal × α)) : List JVal :=
  t.map Prod.fst

/-- One `recipients_by_id` entry (the dict literal at
src/Full_Model_Debug.py lines 167-174). -/
structure RecipientRec where
  RecipientId : JVal
  RecipientName : JVal
  Address : JVal
  City : JVal
  State : JVal
  Country : JVal
  deriving DecidableEq

/-- `current = recipients_by_id.get(rid, {})` starts from the empty dict;
`.get` on the empty dict yields `None` for every field, which this record
of nulls reproduces. -/
def emptyRecipient : RecipientRec :=
  { RecipientId := .null, RecipientName := .null, Address := .null,
    City := .null, State := .null, Country := .null }

/-- The dict literal assigned to `recipients_by_id[rid]`
(src/Full_Model_Debug.py lines 164-174): each field is the incoming value
`or` the current one. -/
def mergedRecipient (tab : List (JVal × RecipientRec)) (rec : JVal) :
    RecipientRec :=
  let rid := rec.get "recipient_id"
  let loc := flatten_location (pyOr (rec.get "Recipient Location") (.obj .nil))
  let current := (lookupTab rid tab).getD emptyRecipient
  { RecipientId := rid
    RecipientName := pyOr (rec.get "Recipient Name") current.RecipientName
    Address := pyOr loc.Address current.Address
    City := pyOr loc.City current.City
    State := pyOr loc.StateName current.State
    Country := pyOr loc.Country current.Country }

/-- One iteration of the `recipients_by_id` loop
(src/Full_Model_Debug.py lines 159-174). -/
def stepRecipient (tab : List (JVal × RecipientRec)) (rec : JVal) :
    List (JVal × RecipientRec) :=
  let rid := rec.get "recipient_id"
  if ¬ rid.truthy then tab
  else upsert rid (mergedRecipient tab rec) tab

/-- `recipients_by_id` after the whole loop
(src/Full_Model_Debug.py lines 158-174). -/
def recipients_by_id (all_raw : List JVal) : List (JVal × RecipientRec) :=
  all_raw.foldl stepRecipient []

/-- One `subagencies_by_code` entry
(src/Full_Model_Debug.py lines 189-193). -/
structure SubAgencyRec where
  AwardingSubAgencyCode : JVal
  AwardingSubAgencyName : JVal
  AwardingAgencyCode : JVal
  deriving DecidableEq

/-- One iteration of the `subagencies_by_code` loop
(src/Full_Model_Debug.py lines 180-193). -/
def stepSubAgency (tab : List (JVal × SubAgencyRec)) (rec : JVal) :
    List (JVal × SubAgencyRec) :=
  let sub_code := rec.get "Awarding Sub Agency Code"
  if ¬ sub_code.truthy then tab
  else if (lookupTab sub_code tab).isSome then tab
  else
    tab ++ [(sub_code,
      { AwardingSubAgencyCode := sub_code
        AwardingSubAgencyName := rec.get "Awarding Sub Agency"
        AwardingAgencyCode := rec.get "Awarding Agency Code" })]

/-- `subagencies_by_code` after the whole loop
(src/Full_Model_Debug.py lines 179-193). -/
def subagencies_by_code (all_raw : List JVal) : List (JVal × SubAgencyRec) :=
  all_raw.foldl stepSubAgency []

/-- One `agencies_by_code` entry (src/Full_Model_Debug.py lines 206-209). -/
structure AgencyRec where
  AwardingAgencyCode : JVal
  AwardingAgencyName : JVal
  deriving DecidableEq

/-- One iteration of the `agencies_by_code` loop
(src/Full_Model_Debug.py lines 199-209). -/
def stepAgency (tab : List (JVal × AgencyRec)) (rec : JVal) :
    List (JVal × AgencyRec) :=
  let a_code := rec.get "Awarding Agency Code"
  if ¬ a_code.truthy then tab
  else if (lookupTab a_code tab).isSome then tab
  else
    tab ++ [(a_code,
      { AwardingAgencyCode := a_code
        AwardingAgencyName := rec.get "Awarding Agency" })]

/-- `agencies_by_code` after the whole loop
(src/Full_Model_Debug.py lines 198-209). -/
def agencies_by_code (all_raw : List JVal) : List (JVal × AgencyRec) :=
  all_raw.foldl stepAgency []

/-! ### Page loops

A run is driven against an environment `env : Nat → JVal` mapping each page
number to the JSON response the endpoint returns for it
(`get_usaspending_page` performs exactly one request per call). -/

/-- `results = data.get("results", [])`
(src/Full_Model_Debug.py line 123, src/Test.py line 117,
src/USAspendV1.py line 56).  The endpoint contract makes `results` an
array when present; a present-but-null value behaves like the empty list
(both are falsy, so the loop breaks either way before using it). -/
def resultsOf (data : JVal) : List JVal :=
  match data.getD "results" (.arr .nil) with
  | .arr a => a.toList
  | _ => []

/-- `data.get("page_metadata", {}).get("hasNext", False)`
(src/Full_Model_Debug.py lines 132-133, src/Test.py lines 129-130). -/
def hasNextOf (data : JVal) : JVal :=
  (data.getD "page_metadata" (.obj .nil)).getD "hasNext" (.bool false)

/-- `MAX_PAGES` (src/Full_Model_Debug.py line 35, src/Test.py line 33). -/
def MAX_PAGES : Nat := 3

/-- The page loop of `fetch_and_model`
(src/Full_Model_Debug.py lines 121-135): starting at `page`, with `rem`
iterations left in `range(1, MAX_PAGES + 1)`, return the accumulated
`all_raw` records and the list of page numbers actually fetched.  The loop
breaks on an empty page, breaks when `hasNext` is falsy, and otherwise
continues to the next page. -/
def fetchPagesAux (env : Nat → JVal) : Nat → Nat → List JVal × List Nat
  | _, 0 => ([], [])
  | page, rem + 1 =>
    let results := resultsOf (env page)
    if results.isEmpty then ([], [page])
    else if ¬ (hasNextOf (env page)).truthy then (results, [page])
    else
      let rest := fetchPagesAux env (page + 1) rem
      (results ++ rest.1, page :: rest.2)

/-- The `fetch_and_model` page loop run from page 1 with a page cap. -/
def fetchPages (env : Nat → JVal) (cap : Nat) : List JVal × List Nat :=
  fetchPagesAux env 1 cap

/-- `iter_usaspending` (src/USAspendV1.py lines 52-61): `while True`, break
when a page has no results, otherwise yield the records and move to the
next page.  There is no `hasNext` check and no page cap; `fuel` bounds the
otherwise unbounded loop so the model is total (a run that exhausts the
fuel is cut off, returning what was yielded so far). -/
def iterPagesAux (env : Nat → JVal) : Nat → Nat → List JVal × List Nat
  | _, 0 => ([], [])
  | page, fuel + 1 =>
    let results := resultsOf (env page)
    if results.isEmpty then ([], [page])
    else
      let rest := iterPagesAux env (page + 1) fuel
      (results ++ rest.1, page :: rest.2)

/-- `iter_usaspending` run from page 1. -/
def iter_usaspending (env : Nat → JVal) (fuel : Nat) : List JVal × List Nat :=
  iterPagesAux env 1 fuel

/-! ### Record-to-row transforms -/

/-- One row pushed to Power BI (the dict literal of `transform_for_pbi`,
src/USAspendV1.py lines 63-74). -/
structure PbiRow where
  AwardId : JVal
  RecipientName : JVal
  AwardAmount : JVal
  AwardingAgency : JVal
  AwardingSubAgency : JVal
  FundingAgency : JVal
  FundingSubAgency : JVal
  StartDate : JVal
  EndDate : JVal
  deriving DecidableEq

/-- `transform_for_pbi` (src/USAspendV1.py lines 63-74). -/
def transform_for_pbi (record : JVal) : PbiRow :=
  { AwardId := record.get "Award ID"
    RecipientName := record.get "Recipient Name"
    AwardAmount := record.get "Award Amount"
    AwardingAgency := record.get "Awarding Agency"
    AwardingSubAgency := record.get "Awarding Sub Agency"
    FundingAgency := record.get "Funding Agency"
    FundingSubAgency := record.get "Funding Sub Agency"
    StartDate := record.get "Start Date"
    EndDate := record.get "End Date" }

/-- One row of `transform_for_powerbi` (src/Test.py lines 86-105); the
Python dict keys "Recipient State" / "Recipient City" /
"Recipient Country" contain spaces and become the last three fields. -/
structure PowerBiRow where
  AwardId : JVal
  RecipientName : JVal
  AwardAmount : JVal
  AwardingAgency : JVal
  AwardingSubAgency : JVal
  FundingAgency : JVal
  FundingSubAgency : JVal
  StartDate : JVal
  EndDate : JVal
  RecipientState : JVal
  RecipientCity : JVal
  RecipientCountry : JVal
  deriving DecidableEq

/-- `transform_for_powerbi` (src/Test.py lines 86-105), as a total
function on the non-raising domain.  When the record's
"Recipient Location" value is truthy but not a mapping, the Python
function raises `AttributeError` at `loc.get(...)` (line 102) instead of
returning a row; `transform_for_powerbi_checked` below makes that failure
path explicit, and this function gives the row returned whenever no
exception occurs. -/
def transform_for_powerbi (record : JVal) : PowerBiRow :=
  let loc := pyOr (record.get "Recipient Location") (.obj .nil)
  { AwardId := record.get "Award ID"
    RecipientName := record.get "Recipient Name"
    AwardAmount := record.get "Award Amount"
    AwardingAgency := record.get "Awarding Agency"
    AwardingSubAgency := record.get "Awarding Sub Agency"
    FundingAgency := record.get "Funding Agency"
    FundingSubAgency := record.get "Funding Sub Agency"
    StartDate := record.get "Start Date"
    EndDate := record.get "End Date"
    RecipientState := loc.get "state_name"
    RecipientCity := loc.get "city_name"
    RecipientCountry := loc.get "country_name" }

/-- Python attribute access `v.get(key)`: only dicts have a `.get`
method, so calling it on a non-mapping value raises `AttributeError`,
modelled as `none`. -/
def JVal.getAttr? (v : JVal) (key : String) : Option JVal :=
  match v with
  | .obj o => some ((o.find? key).getD .null)
  | _ => none

/-- `transform_for_powerbi` with Python's failure behavior made explicit:
`loc = record.get("Recipient Location") or {}` followed by the three
`loc.get(...)` calls (src/Test.py lines 91 and 102-104) raises
`AttributeError` when `loc` is a truthy non-mapping; `none` models that
exception.  On the non-raising domain it returns exactly the
`transform_for_powerbi` row. -/
def transform_for_powerbi_checked (record : JVal) : Option PowerBiRow :=
  let loc := pyOr (record.get "Recipient Location") (.obj .nil)
  match loc.getAttr? "state_name", loc.getAttr? "city_name",
      loc.getAttr? "country_name" with
  | some st, some ci, some co =>
    some { AwardId := record.get "Award ID"
           RecipientName := record.get "Recipient Name"
           AwardAmount := record.get "Award Amount"
           AwardingAgency := record.get "Awarding Agency"
           AwardingSubAgency := record.get "Awarding Sub Agency"
           FundingAgency := record.get "Funding Agency"
           FundingSubAgency := record.get "Funding Sub Agency"
           StartDate := record.get "Start Date"
           EndDate := record.get "End Date"
           RecipientState := st
           RecipientCity := ci
           RecipientCountry := co }
  | _, _, _ => none

/-- The page loop of `fetch_all_debug` (src/Test.py lines 115-132): same
control flow as `fetch_and_model`, additionally extending
`all_transformed` with the transformed records of each kept page.  Returns
`(all_raw, all_transformed, pages fetched)`. -/
def fetchAllDebugAux (env : Nat → JVal) :
    Nat → Nat → List JVal × List PowerBiRow × List Nat
  | _, 0 => ([], [], [])
  | page, rem + 1 =>
    let results := resultsOf (env page)
    if results.isEmpty then ([], [], [page])
    else if ¬ (hasNextOf (env page)).truthy then
      (results, results.map transform_for_powerbi, [page])
    else
      let rest := fetchAllDebugAux env (page + 1) rem
      (results ++ rest.1, results.map transform_for_powerbi ++ rest.2.1,
       page :: rest.2.2)

/-- `fetch_all_debug`'s loop run from page 1 with the `MAX_PAGES` cap. -/
def fetch_all_debug (env : Nat → JVal) : List JVal × List PowerBiRow × List Nat :=
  fetchAllDebugAux env 1 MAX_PAGES

/-! ### Pushing batches (src/USAspendV1.py lines 76-108)

The Power BI endpoint is modelled by `sink : List PbiRow → Bool`: `true`
means the POST succeeded, `false` means `resp.raise_for_status()` raised,
which aborts `main`. -/

/-- `push_batch_to_powerbi` (src/USAspendV1.py lines 76-86).  Returns the
list of HTTP requests issued (each request carries its rows payload) and
whether the call succeeded: an empty `rows` returns immediately without
issuing any request. -/
def push_batch_to_powerbi (sink : List PbiRow → Bool) (rows : List PbiRow) :
    List (List PbiRow) × Bool :=
  if rows.isEmpty then ([], true)
  else ([rows], sink rows)

/-- `batch_size` (src/USAspendV1.py line 98). -/
def batch_size : Nat := 500

/-- The batching loop of `main` (src/USAspendV1.py lines 97-108) over the
records yielded by `iter_usaspending`: `flushed` collects the batches
delivered to the sink so far, `batch` is the current buffer.  A flush
happens when appending a row makes the buffer reach `bs`
(`len(batch) >= batch_size`), and once at the end for a non-empty
remainder (`if batch:`).  A failed sink call raises, so the run stops with
the buffer not cleared: the error value carries the batches already
delivered and the buffer at the moment of failure. -/
def mainPushAux (sink : List PbiRow → Bool) (bs : Nat)
    (flushed : List (List PbiRow)) (batch : List PbiRow) :
    List JVal → Except (List (List PbiRow) × List PbiRow) (List (List PbiRow))
  | [] =>
    if batch.isEmpty then .ok flushed
    else if (push_batch_to_powerbi sink batch).2 then .ok (flushed ++ [batch])
    else .error (flushed, batch)
  | rec :: rest =>
    let batch' := batch ++ [transform_for_pbi rec]
    if bs ≤ batch'.length then
      if (push_batch_to_powerbi sink batch').2 then
        mainPushAux sink bs (flushed ++ [batch']) [] rest
      else .error (flushed, batch')
    else mainPushAux sink bs flushed batch' rest

/-- The sink of a run on which every Power BI call succeeds. -/
def trueSink : List PbiRow → Bool := fun _ => true

/-! ### Helper lemmas about tables and Python `or` -/

theorem lookupTab_upsert_self {α : Type} (k : JVal) (v : α)
    (t : List (JVal × α)) : lookupTab k (upsert k v t) = some v := by
  induction t with
  | nil => simp [upsert, lookupTab]
  | cons p t ih =>
    obtain ⟨k', v'⟩ := p
    by_cases h : k' = k
    · simp [upsert, lookupTab, h]
    · simp [upsert, lookupTab, h, ih]

theorem upsert_upsert {α : Type} (k : JVal) (v w : α) (t : List (JVal × α)) :
    upsert k w (upsert k v t) = upsert k w t := by
  induction t with
  | nil => simp [upsert]
  | cons p t ih =>
    obtain ⟨k', v'⟩ := p
    by_cases h : k' = k
    · simp [upsert, h]
    · simp [upsert, h, ih]

theorem tabKeys_upsert {α : Type} (k : JVal) (v : α) (t : List (JVal × α)) :
    tabKeys (upsert k v t) =
      if k ∈ tabKeys t then tabKeys t else tabKeys t ++ [k] := by
  simp only [tabKeys]
  induction t with
  | nil => simp [upsert]
  | cons p t ih =>
    obtain ⟨k', v'⟩ := p
    by_cases h : k' = k
    · subst h; simp [upsert]
    · have hne : ¬ k = k' := fun hk => h hk.symm
      simp only [upsert, if_neg h, List.map_cons, List.mem_cons, hne, false_or]
      rw [ih]
      by_cases hmem : k ∈ List.map Prod.fst t <;> simp [hmem]

theorem lookupTab_isSome_iff {α : Type} (k : JVal) (t : List (JVal × α)) :
    (lookupTab k t).isSome = true ↔ k ∈ tabKeys t := by
  induction t with
  | nil => simp [lookupTab, tabKeys]
  | cons p t ih =>
    obtain ⟨k', v'⟩ := p
    by_cases h : k' = k
    · simp [lookupTab, tabKeys, h]
    · have hne : ¬ k = k' := fun hk => h hk.symm
      simp [lookupTab, tabKeys, h, hne, ih]

theorem tabKeys_append_single {α : Type} (t : List (JVal × α)) (k : JVal)
    (v : α) : tabKeys (t ++ [(k, v)]) = tabKeys t ++ [k] := by
  simp [tabKeys]

theorem pyOr_pyOr (a b : JVal) : pyOr a (pyOr a b) = pyOr a b := by
  by_cases h : a.truthy <;> simp [pyOr, h]

theorem pyOr_eq_ite (a b : JVal) : pyOr a b = if a.truthy then a else b := rfl

/-! ### Key-set characterization of the three dimension loops

Each loop step either leaves the table's key list unchanged or appends the
record's (truthy) natural id; the generic fold lemma below turns that into
the dedup invariant. -/

theorem mem_tabKeys_foldl {α : Type}
    (step : List (JVal × α) → JVal → List (JVal × α)) (idOf : JVal → JVal)
    (hmem : ∀ t r k, k ∈ tabKeys (step t r) ↔
      k ∈ tabKeys t ∨ ((idOf r).truthy = true ∧ k = idOf r))
    (hnodup : ∀ t r, (tabKeys t).Nodup → (tabKeys (step t r)).Nodup) :
    ∀ (rs : List JVal) (t : List (JVal × α)), (tabKeys t).Nodup →
      (tabKeys (rs.foldl step t)).Nodup ∧
      (∀ k, k ∈ tabKeys (rs.foldl step t) ↔
        k ∈ tabKeys t ∨ (k.truthy = true ∧ k ∈ rs.map idOf)) := by
  intro rs
  induction rs with
  | nil => intro t ht; simpa using ht
  | cons r rs ih =>
    intro t ht
    have ih' := ih (step t r) (hnodup t r ht)
    refine ⟨ih'.1, fun k => ?_⟩
    rw [List.foldl_cons] at *
    rw [ih'.2 k, hmem t r k]
    constructor
    · rintro ((hk | ⟨htr, hk⟩) | ⟨hk, hmem'⟩)
      · exact Or.inl hk
      · subst hk; exact Or.inr ⟨htr, by simp⟩
      · exact Or.inr ⟨hk, by simp [hmem']⟩
    · rintro (hk | ⟨hk, hmem'⟩)
      · exact Or.inl (Or.inl hk)
      · rcases List.mem_map.mp hmem' with ⟨a, ha, hak⟩
        rcases List.mem_cons.mp ha with h | h
        · subst h
          exact Or.inl (Or.inr ⟨hak ▸ hk, hak.symm⟩)
        · exact Or.inr ⟨hk, List.mem_map.mpr ⟨a, h, hak⟩⟩

theorem mem_tabKeys_stepRecipient (t : List (JVal × RecipientRec))
    (r k : JVal) : k ∈ tabKeys (stepRecipient t r) ↔
      k ∈ tabKeys t ∨
        ((r.get "recipient_id").truthy = true ∧ k = r.get "recipient_id") := by
  by_cases hrid : (r.get "recipient_id").truthy = true
  · simp only [stepRecipient]
    rw [if_neg (by simp [hrid]), tabKeys_upsert]
    by_cases hmem : r.get "recipient_id" ∈ tabKeys t
    · rw [if_pos hmem]
      constructor
      · exact Or.inl
      · rintro (hk | ⟨-, rfl⟩)
        · exact hk
        · exact hmem
    · rw [if_neg hmem]
      simp [hrid]
  · simp only [stepRecipient]
    rw [if_pos (by simpa using hrid)]
    simp [hrid]

theorem nodup_tabKeys_stepRecipient (t : List (JVal × RecipientRec))
    (r : JVal) (h : (tabKeys t).Nodup) :
    (tabKeys (stepRecipient t r)).Nodup := by
  by_cases hrid : (r.get "recipient_id").truthy = true
  · simp only [stepRecipient]
    rw [if_neg (by simp [hrid]), tabKeys_upsert]
    by_cases hmem : r.get "recipient_id" ∈ tabKeys t
    · rw [if_pos hmem]; exact h
    · rw [if_neg hmem]
      simp [List.nodup_append, h, hmem]
  · simp only [stepRecipient]
    rw [if_pos (by simpa using hrid)]
    exact h

theorem mem_tabKeys_stepSubAgency (t : List (JVal × SubAgencyRec))
    (r k : JVal) : k ∈ tabKeys (stepSubAgency t r) ↔
      k ∈ tabKeys t ∨
        ((r.get "Awarding Sub Agency Code").truthy = true ∧
          k = r.get "Awarding Sub Agency Code") := by
  by_cases hc : (r.get "Awarding Sub Agency Code").truthy = true
  · by_cases hs : (lookupTab (r.get "Awarding Sub Agency Code") t).isSome = true
    · have hmem := (lookupTab_isSome_iff _ t).mp hs
      simp only [stepSubAgency]
      rw [if_neg (by simp [hc]), if_pos hs]
      constructor
      · exact Or.inl
      · rintro (hk | ⟨-, rfl⟩)
        · exact hk
        · exact hmem
    · simp only [stepSubAgency]
      rw [if_neg (by simp [hc]), if_neg hs, tabKeys_append_single]
      simp [hc]
  · simp only [stepSubAgency]
    rw [if_pos (by simpa using hc)]
    simp [hc]

theorem nodup_tabKeys_stepSubAgency (t : List (JVal × SubAgencyRec))
    (r : JVal) (h : (tabKeys t).Nodup) :
    (tabKeys (stepSubAgency t r)).Nodup := by
  by_cases hc : (r.get "Awarding Sub Agency Code").truthy = true
  · by_cases hs : (lookupTab (r.get "Awarding Sub Agency Code") t).isSome = true
    · simp only [stepSubAgency]
      rw [if_neg (by simp [hc]), if_pos hs]
      exact h
    · have hmem : r.get "Awarding Sub Agency Code" ∉ tabKeys t := by
        intro hk
        exact hs ((lookupTab_isSome_iff _ t).mpr hk)
      simp only [stepSubAgency]
      rw [if_neg (by simp [hc]), if_neg hs, tabKeys_append_single]
      simp [List.nodup_append, h, hmem]
  · simp only [stepSubAgency]
    rw [if_pos (by simpa using hc)]
    exact h

theorem mem_tabKeys_stepAgency (t : List (JVal × AgencyRec))
    (r k : JVal) : k ∈ tabKeys (stepAgency t r) ↔
      k ∈ tabKeys t ∨
        ((r.get "Awarding Agency Code").truthy = true ∧
          k = r.get "Awarding Agency Code") := by
  by_cases hc : (r.get "Awarding Agency Code").truthy = true
  · by_cases hs : (lookupTab (r.get "Awarding Agency Code") t).isSome = true
    · have hmem := (lookupTab_isSome_iff _ t).mp hs
      simp only [stepAgency]
      rw [if_neg (by simp [hc]), if_pos hs]
      constructor
      · exact Or.inl
      · rintro (hk | ⟨-, rfl⟩)
        · exact hk
        · exact hmem
    · simp only [stepAgency]
      rw [if_neg (by simp [hc]), if_neg hs, tabKeys_append_single]
      simp [hc]
  · simp only [stepAgency]
    rw [if_pos (by simpa using hc)]
    simp [hc]

theorem nodup_tabKeys_stepAgency (t : List (JVal × AgencyRec))
    (r : JVal) (h : (tabKeys t).Nodup) :
    (tabKeys (stepAgency t r)).Nodup := by
  by_cases hc : (r.get "Awarding Agency Code").truthy = true
  · by_cases hs : (lookupTab (r.get "Awarding Agency Code") t).isSome = true
    · simp only [stepAgency]
      rw [if_neg (by simp [hc]), if_pos hs]
      exact h
    · have hmem : r.get "Awarding Agency Code" ∉ tabKeys t := by
        intro hk
        exact hs ((lookupTab_isSome_iff _ t).mpr hk)
      simp only [stepAgency]
      rw [if_neg (by simp [hc]), if_neg hs, tabKeys_append_single]
      simp [List.nodup_append, h, hmem]
  · simp only [stepAgency]
    rw [if_pos (by simpa using hc)]
    exact h

/-- Key-set characterization of `recipients_by_id`: keys are exactly the
distinct truthy recipient ids, without duplicates. -/
theorem recipients_by_id_keys (rs : List JVal) :
    (tabKeys (recipients_by_id rs)).Nodup ∧
      ∀ k, k ∈ tabKeys (recipients_by_id rs) ↔
        k.truthy = true ∧ k ∈ rs.map (fun r => r.get "recipient_id") := by
  have h := mem_tabKeys_foldl stepRecipient (fun r => r.get "recipient_id")
    (fun t r k => mem_tabKeys_stepRecipient t r k)
    (fun t r ht => nodup_tabKeys_stepRecipient t r ht)
    rs [] (by simp [tabKeys])
  refine ⟨h.1, fun k => ?_⟩
  have := h.2 k
  simpa [recipients_by_id, tabKeys] using this

/-- Key-set characterization of `subagencies_by_code`. -/
theorem subagencies_by_code_keys (rs : List JVal) :
    (tabKeys (subagencies_by_code rs)).Nodup ∧
      ∀ k, k ∈ tabKeys (subagencies_by_code rs) ↔
        k.truthy = true ∧
          k ∈ rs.map (fun r => r.get "Awarding Sub Agency Code") := by
  have h := mem_tabKeys_foldl stepSubAgency
    (fun r => r.get "Awarding Sub Agency Code")
    (fun t r k => mem_tabKeys_stepSubAgency t r k)
    (fun t r ht => nodup_tabKeys_stepSubAgency t r ht)
    rs [] (by simp [tabKeys])
  refine ⟨h.1, fun k => ?_⟩
  have := h.2 k
  simpa [subagencies_by_code, tabKeys] using this

/-- Key-set characterization of `agencies_by_code`. -/
theorem agencies_by_code_keys (rs : List JVal) :
    (tabKeys (agencies_by_code rs)).Nodup ∧
      ∀ k, k ∈ tabKeys (agencies_by_code rs) ↔
        k.truthy = true ∧ k ∈ rs.map (fun r => r.get "Awarding Agency Code") := by
  have h := mem_tabKeys_foldl stepAgency (fun r => r.get "Awarding Agency Code")
    (fun t r k => mem_tabKeys_stepAgency t r k)
    (fun t r ht => nodup_tabKeys_stepAgency t r ht)
    rs [] (by simp [tabKeys])
  refine ⟨h.1, fun k => ?_⟩
  have := h.2 k
  simpa [agencies_by_code, tabKeys] using this

/-! ### Merge-step lemmas: unfolding, lookup after merge, idempotence -/

theorem stepRecipient_unfold (t : List (JVal × RecipientRec)) (r : JVal)
    (h : (r.get "recipient_id").truthy = true) :
    stepRecipient t r =
      upsert (r.get "recipient_id") (mergedRecipient t r) t := by
  simp only [stepRecipient]
  rw [if_neg (by simp [h])]

theorem lookupTab_stepRecipient (t : List (JVal × RecipientRec)) (r : JVal)
    (h : (r.get "recipient_id").truthy = true) :
    lookupTab (r.get "recipient_id") (stepRecipient t r) =
      some (mergedRecipient t r) := by
  rw [stepRecipient_unfold t r h, lookupTab_upsert_self]

theorem mergedRecipient_stepRecipient (t : List (JVal × RecipientRec))
    (r : JVal) (h : (r.get "recipient_id").truthy = true) :
    mergedRecipient (stepRecipient t r) r = mergedRecipient t r := by
  conv_lhs => simp only [mergedRecipient]
  rw [lookupTab_stepRecipient t r h]
  simp only [Option.getD_some, mergedRecipient]
  simp [pyOr_pyOr]

theorem stepRecipient_idem (t : List (JVal × RecipientRec)) (r : JVal) :
    stepRecipient (stepRecipient t r) r = stepRecipient t r := by
  by_cases h : (r.get "recipient_id").truthy = true
  · rw [stepRecipient_unfold (stepRecipient t r) r h,
      mergedRecipient_stepRecipient t r h, stepRecipient_unfold t r h,
      upsert_upsert]
  · simp [stepRecipient, h]

theorem lookupTab_append {α : Type} (k : JVal) (t₁ t₂ : List (JVal × α)) :
    lookupTab k (t₁ ++ t₂) =
      match lookupTab k t₁ with
      | some v => some v
      | none => lookupTab k t₂ := by
  induction t₁ with
  | nil => simp [lookupTab]
  | cons p t ih =>
    obtain ⟨k', v'⟩ := p
    by_cases h : k' = k
    · simp [lookupTab, h]
    · simp [lookupTab, h, ih]

theorem stepSubAgency_idem (t : List (JVal × SubAgencyRec)) (r : JVal) :
    stepSubAgency (stepSubAgency t r) r = stepSubAgency t r := by
  by_cases hc : (r.get "Awarding Sub Agency Code").truthy = true
  · by_cases hs : (lookupTab (r.get "Awarding Sub Agency Code") t).isSome = true
    · have h1 : stepSubAgency t r = t := by
        simp only [stepSubAgency]
        rw [if_neg (by simp [hc]), if_pos hs]
      rw [h1, h1]
    · have h1 : stepSubAgency t r = t ++
          [(r.get "Awarding Sub Agency Code",
            { AwardingSubAgencyCode := r.get "Awarding Sub Agency Code"
              AwardingSubAgencyName := r.get "Awarding Sub Agency"
              AwardingAgencyCode := r.get "Awarding Agency Code" })] := by
        simp only [stepSubAgency]
        rw [if_neg (by simp [hc]), if_neg hs]
      have h2 : (lookupTab (r.get "Awarding Sub Agency Code")
          (stepSubAgency t r)).isSome = true := by
        rw [h1, lookupTab_append]
        rcases hl : lookupTab (r.get "Awarding Sub Agency Code") t with _ | v
        · simp [lookupTab]
        · simp
      set u := stepSubAgency t r with hu
      simp only [stepSubAgency]
      rw [if_neg (by simp [hc]), if_pos h2]
  · simp [stepSubAgency, hc]

theorem stepAgency_idem (t : List (JVal × AgencyRec)) (r : JVal) :
    stepAgency (stepAgency t r) r = stepAgency t r := by
  by_cases hc : (r.get "Awarding Agency Code").truthy = true
  · by_cases hs : (lookupTab (r.get "Awarding Agency Code") t).isSome = true
    · have h1 : stepAgency t r = t := by
        simp only [stepAgency]
        rw [if_neg (by simp [hc]), if_pos hs]
      rw [h1, h1]
    · have h1 : stepAgency t r = t ++
          [(r.get "Awarding Agency Code",
            { AwardingAgencyCode := r.get "Awarding Agency Code"
              AwardingAgencyName := r.get "Awarding Agency" })] := by
        simp only [stepAgency]
        rw [if_neg (by simp [hc]), if_neg hs]
      have h2 : (lookupTab (r.get "Awarding Agency Code")
          (stepAgency t r)).isSome = true := by
        rw [h1, lookupTab_append]
        rcases hl : lookupTab (r.get "Awarding Agency Code") t with _ | v
        · simp [lookupTab]
        · simp
      set u := stepAgency t r with hu
      simp only [stepAgency]
      rw [if_neg (by simp [hc]), if_pos h2]
  · simp [stepAgency, hc]

/-! ### Page-loop lemmas -/

theorem fetchPagesAux_succ_empty (env : Nat → JVal) (start rem : Nat)
    (he : (resultsOf (env start)).isEmpty = true) :
    fetchPagesAux env start (rem + 1) = ([], [start]) := by
  simp [fetchPagesAux, he]

theorem fetchPagesAux_succ_stop (env : Nat → JVal) (start rem : Nat)
    (he : (resultsOf (env start)).isEmpty = false)
    (hn : (hasNextOf (env start)).truthy = false) :
    fetchPagesAux env start (rem + 1) = (resultsOf (env start), [start]) := by
  simp [fetchPagesAux, he, hn]

theorem fetchPagesAux_succ_cont (env : Nat → JVal) (start rem : Nat)
    (he : (resultsOf (env start)).isEmpty = false)
    (hn : (hasNextOf (env start)).truthy = true) :
    fetchPagesAux env start (rem + 1) =
      (resultsOf (env start) ++ (fetchPagesAux env (start + 1) rem).1,
       start :: (fetchPagesAux env (start + 1) rem).2) := by
  simp [fetchPagesAux, he, hn]

theorem iterPagesAux_succ_empty (env : Nat → JVal) (start fuel : Nat)
    (he : (resultsOf (env start)).isEmpty = true) :
    iterPagesAux env start (fuel + 1) = ([], [start]) := by
  simp [iterPagesAux, he]

theorem iterPagesAux_succ_cont (env : Nat → JVal) (start fuel : Nat)
    (he : (resultsOf (env start)).isEmpty = false) :
    iterPagesAux env start (fuel + 1) =
      (resultsOf (env start) ++ (iterPagesAux env (start + 1) fuel).1,
       start :: (iterPagesAux env (start + 1) fuel).2) := by
  simp [iterPagesAux, he]

theorem fetchAllDebugAux_succ_empty (env : Nat → JVal) (start rem : Nat)
    (he : (resultsOf (env start)).isEmpty = true) :
    fetchAllDebugAux env start (rem + 1) = ([], [], [start]) := by
  simp [fetchAllDebugAux, he]

theorem fetchAllDebugAux_succ_stop (env : Nat → JVal) (start rem : Nat)
    (he : (resultsOf (env start)).isEmpty = false)
    (hn : (hasNextOf (env start)).truthy = false) :
    fetchAllDebugAux env start (rem + 1) =
      (resultsOf (env start),
       (resultsOf (env start)).map transform_for_powerbi, [start]) := by
  simp [fetchAllDebugAux, he, hn]

theorem fetchAllDebugAux_succ_cont (env : Nat → JVal) (start rem : Nat)
    (he : (resultsOf (env start)).isEmpty = false)
    (hn : (hasNextOf (env start)).truthy = true) :
    fetchAllDebugAux env start (rem + 1) =
      (resultsOf (env start) ++ (fetchAllDebugAux env (start + 1) rem).1,
       (resultsOf (env start)).map transform_for_powerbi ++
         (fetchAllDebugAux env (start + 1) rem).2.1,
       start :: (fetchAllDebugAux env (start + 1) rem).2.2) := by
  simp [fetchAllDebugAux, he, hn]

/-- A page number is fetched by the `fetch_and_model` loop exactly when it
is in the cap window and every earlier page in the window had records and
a truthy `hasNext`. -/
theorem mem_fetchPagesAux (env : Nat → JVal) :
    ∀ (rem start q : Nat), q ∈ (fetchPagesAux env start rem).2 ↔
      (start ≤ q ∧ q < start + rem ∧
        ∀ r, start ≤ r → r < q →
          (resultsOf (env r) ≠ [] ∧ (hasNextOf (env r)).truthy = true)) := by
  intro rem
  induction rem with
  | zero =>
    intro start q
    constructor
    · intro h
      simp [fetchPagesAux] at h
    · rintro ⟨h1, h2, -⟩
      omega
  | succ rem ih =>
    intro start q
    rcases he : (resultsOf (env start)).isEmpty with _ | _
    · rcases hn : (hasNextOf (env start)).truthy with _ | _
      · rw [fetchPagesAux_succ_stop env start rem he hn]
        constructor
        · intro h
          have hq : q = start := by simpa using h
          subst hq
          exact ⟨le_refl _, by omega, fun r h1 h2 => absurd h1 (by omega)⟩
        · rintro ⟨h1, h2, hall⟩
          rcases Nat.eq_or_lt_of_le h1 with h | h
          · simp [h]
          · exact absurd (hall start (le_refl _) h).2 (by simp [hn])
      · rw [fetchPagesAux_succ_cont env start rem he hn]
        constructor
        · intro h
          rcases List.mem_cons.mp h with h | h
          · subst h
            exact ⟨le_refl _, by omega, fun r h1 h2 => absurd h1 (by omega)⟩
          · obtain ⟨h1, h2, hall⟩ := (ih (start + 1) q).mp h
            refine ⟨by omega, by omega, fun r hr1 hr2 => ?_⟩
            rcases Nat.eq_or_lt_of_le hr1 with hr | hr
            · subst hr
              exact ⟨by simpa [List.isEmpty_iff] using he, hn⟩
            · exact hall r (by omega) hr2
        · rintro ⟨h1, h2, hall⟩
          rcases Nat.eq_or_lt_of_le h1 with h | h
          · simp [h]
          · exact List.mem_cons.mpr (Or.inr ((ih (start + 1) q).mpr
              ⟨by omega, by omega, fun r hr1 hr2 => hall r (by omega) hr2⟩))
    · rw [fetchPagesAux_succ_empty env start rem he]
      have hnil : resultsOf (env start) = [] := List.isEmpty_iff.mp he
      constructor
      · intro h
        have hq : q = start := by simpa using h
        subst hq
        exact ⟨le_refl _, by omega, fun r h1 h2 => absurd h1 (by omega)⟩
      · rintro ⟨h1, h2, hall⟩
        rcases Nat.eq_or_lt_of_le h1 with h | h
        · simp [h]
        · exact absurd (hall start (le_refl _) h).1 (by simp [hnil])

/-- A page number is fetched by `iter_usaspending` exactly when it is
within the fuel window and every earlier page had records; `hasNext` plays
no role and there is no page cap beyond the fuel cutoff. -/
theorem mem_iterPagesAux (env : Nat → JVal) :
    ∀ (fuel start q : Nat), q ∈ (iterPagesAux env start fuel).2 ↔
      (start ≤ q ∧ q < start + fuel ∧
        ∀ r, start ≤ r → r < q → resultsOf (env r) ≠ []) := by
  intro fuel
  induction fuel with
  | zero =>
    intro start q
    constructor
    · intro h
      simp [iterPagesAux] at h
    · rintro ⟨h1, h2, -⟩
      omega
  | succ fuel ih =>
    intro start q
    rcases he : (resultsOf (env start)).isEmpty with _ | _
    · rw [iterPagesAux_succ_cont env start fuel he]
      constructor
      · intro h
        rcases List.mem_cons.mp h with h | h
        · subst h
          exact ⟨le_refl _, by omega, fun r h1 h2 => absurd h1 (by omega)⟩
        · obtain ⟨h1, h2, hall⟩ := (ih (start + 1) q).mp h
          refine ⟨by omega, by omega, fun r hr1 hr2 => ?_⟩
          rcases Nat.eq_or_lt_of_le hr1 with hr | hr
          · subst hr
            exact by simpa [List.isEmpty_iff] using he
          · exact hall r (by omega) hr2
      · rintro ⟨h1, h2, hall⟩
        rcases Nat.eq_or_lt_of_le h1 with h | h
        · simp [h]
        · exact List.mem_cons.mpr (Or.inr ((ih (start + 1) q).mpr
            ⟨by omega, by omega, fun r hr1 hr2 => hall r (by omega) hr2⟩))
    · rw [iterPagesAux_succ_empty env start fuel he]
      have hnil : resultsOf (env start) = [] := List.isEmpty_iff.mp he
      constructor
      · intro h
        have hq : q = start := by simpa using h
        subst hq
        exact ⟨le_refl _, by omega, fun r h1 h2 => absurd h1 (by omega)⟩
      · rintro ⟨h1, h2, hall⟩
        rcases Nat.eq_or_lt_of_le h1 with h | h
        · simp [h]
        · exact absurd (hall start (le_refl _) h) (by simp [hnil])

/-- The records accumulated by the `fetch_and_model` loop are exactly the
concatenation of the result lists of the pages actually fetched. -/
theorem fetchPagesAux_fst (env : Nat → JVal) :
    ∀ (rem start : Nat), (fetchPagesAux env start rem).1 =
      ((fetchPagesAux env start rem).2.map
        (fun p => resultsOf (env p))).flatten := by
  intro rem
  induction rem with
  | zero => intro start; simp [fetchPagesAux]
  | succ rem ih =>
    intro start
    rcases he : (resultsOf (env start)).isEmpty with _ | _
    · rcases hn : (hasNextOf (env start)).truthy with _ | _
      · rw [fetchPagesAux_succ_stop env start rem he hn]
        simp
      · rw [fetchPagesAux_succ_cont env start rem he hn]
        simp [ih (start + 1)]
    · rw [fetchPagesAux_succ_empty env start rem he]
      simp [List.isEmpty_iff.mp he]

/-- Same conservation shape for `iter_usaspending`. -/
theorem iterPagesAux_fst (env : Nat → JVal) :
    ∀ (fuel start : Nat), (iterPagesAux env start fuel).1 =
      ((iterPagesAux env start fuel).2.map
        (fun p => resultsOf (env p))).flatten := by
  intro fuel
  induction fuel with
  | zero => intro start; simp [iterPagesAux]
  | succ fuel ih =>
    intro start
    rcases he : (resultsOf (env start)).isEmpty with _ | _
    · rw [iterPagesAux_succ_cont env start fuel he]
      simp [ih (start + 1)]
    · rw [iterPagesAux_succ_empty env start fuel he]
      simp [List.isEmpty_iff.mp he]

/-- The `fetch_all_debug` loop fetches the same pages as the
`fetch_and_model` loop, accumulates the same raw records, and its
transformed list is the transform mapped over the raw records. -/
theorem fetchAllDebugAux_eq (env : Nat → JVal) :
    ∀ (rem start : Nat), fetchAllDebugAux env start rem =
      ((fetchPagesAux env start rem).1,
       (fetchPagesAux env start rem).1.map transform_for_powerbi,
       (fetchPagesAux env start rem).2) := by
  intro rem
  induction rem with
  | zero => intro start; simp [fetchAllDebugAux, fetchPagesAux]
  | succ rem ih =>
    intro start
    rcases he : (resultsOf (env start)).isEmpty with _ | _
    · rcases hn : (hasNextOf (env start)).truthy with _ | _
      · rw [fetchAllDebugAux_succ_stop env start rem he hn,
          fetchPagesAux_succ_stop env start rem he hn]
      · rw [fetchAllDebugAux_succ_cont env start rem he hn,
          fetchPagesAux_succ_cont env start rem he hn, ih (start + 1)]
        simp
    · rw [fetchAllDebugAux_succ_empty env start rem he,
        fetchPagesAux_succ_empty env start rem he]
      simp

/-! ### Batching lemmas for `main` (src/USAspendV1.py lines 88-108) -/

theorem push_batch_snd_trueSink (rows : List PbiRow) :
    (push_batch_to_powerbi trueSink rows).2 = true := by
  by_cases h : rows.isEmpty = true <;>
    simp [push_batch_to_powerbi, trueSink, h]

theorem push_batch_snd_of_ne (sink : List PbiRow → Bool) (rows : List PbiRow)
    (h : rows.isEmpty = false) :
    (push_batch_to_powerbi sink rows).2 = sink rows := by
  simp [push_batch_to_powerbi, h]

/-- On a successful run the delivered batches extend `flushed` with a block
of full batches (each of exactly `bs` rows, flushed when the buffer reached
`bs`) followed by at most one non-empty remainder of fewer than `bs` rows,
and together they carry the buffer plus every transformed record. -/
theorem mainPushAux_ok_shape (sink : List PbiRow → Bool) (bs : Nat) :
    ∀ (recs : List JVal) (fl : List (List PbiRow)) (buf : List PbiRow),
      buf.length < bs → ∀ B, mainPushAux sink bs fl buf recs = .ok B →
      ∃ tail rem,
        B = fl ++ tail ++ (if rem = ([] : List PbiRow) then [] else [rem]) ∧
        (tail ++ (if rem = ([] : List PbiRow) then [] else [rem])).flatten =
          buf ++ recs.map transform_for_pbi ∧
        (∀ b ∈ tail, b.length = bs) ∧ rem.length < bs := by
  intro recs
  induction recs with
  | nil =>
    intro fl buf hbuf B hB
    by_cases hempty : buf.isEmpty = true
    · have hbe : buf = [] := List.isEmpty_iff.mp hempty
      simp only [mainPushAux, if_pos hempty] at hB
      refine ⟨[], [], ?_, ?_, ?_, ?_⟩
      · simpa using (Except.ok.inj hB).symm
      · simp [hbe]
      · simp
      · simpa [hbe] using hbuf
    · simp only [mainPushAux, if_neg hempty] at hB
      have hne : buf ≠ [] := fun h => hempty (by simp [h])
      by_cases hs : (push_batch_to_powerbi sink buf).2 = true
      · rw [if_pos hs] at hB
        refine ⟨[], buf, ?_, ?_, ?_, hbuf⟩
        · simpa [hne] using (Except.ok.inj hB).symm
        · simp [hne]
        · simp
      · rw [if_neg hs] at hB
        exact absurd hB (by simp)
  | cons rec rest ih =>
    intro fl buf hbuf B hB
    simp only [mainPushAux] at hB
    by_cases hsz : bs ≤ (buf ++ [transform_for_pbi rec]).length
    · rw [if_pos hsz] at hB
      have hlen : (buf ++ [transform_for_pbi rec]).length = bs := by
        simp only [List.length_append, List.length_cons, List.length_nil] at hsz ⊢
        omega
      by_cases hs :
          (push_batch_to_powerbi sink (buf ++ [transform_for_pbi rec])).2 = true
      · rw [if_pos hs] at hB
        obtain ⟨tail, rem, hb1, hb2, hb3, hb4⟩ :=
          ih (fl ++ [buf ++ [transform_for_pbi rec]]) []
            (by simp only [List.length_nil]; omega) B hB
        refine ⟨(buf ++ [transform_for_pbi rec]) :: tail, rem, ?_, ?_, ?_, hb4⟩
        · simp [hb1]
        · rw [List.cons_append, List.flatten_cons, hb2]
          simp
        · intro b hb
          rcases List.mem_cons.mp hb with h | h
          · rw [h, hlen]
          · exact hb3 b h
      · rw [if_neg hs] at hB
        exact absurd hB (by simp)
    · rw [if_neg hsz] at hB
      have hlt : (buf ++ [transform_for_pbi rec]).length < bs := by omega
      obtain ⟨tail, rem, hb1, hb2, hb3, hb4⟩ :=
        ih fl (buf ++ [transform_for_pbi rec]) hlt B hB
      refine ⟨tail, rem, hb1, ?_, hb3, hb4⟩
      rw [hb2]
      simp

/-- With a sink that always succeeds, `main`'s loop always returns
normally. -/
theorem mainPushAux_trueSink_ok (bs : Nat) :
    ∀ (recs : List JVal) (fl : List (List PbiRow)) (buf : List PbiRow),
      ∃ B, mainPushAux trueSink bs fl buf recs = .ok B := by
  intro recs
  induction recs with
  | nil =>
    intro fl buf
    by_cases hempty : buf.isEmpty = true
    · exact ⟨fl, by simp [mainPushAux, hempty]⟩
    · refine ⟨fl ++ [buf], ?_⟩
      simp only [mainPushAux, if_neg hempty]
      rw [if_pos (push_batch_snd_trueSink buf)]
  | cons rec rest ih =>
    intro fl buf
    by_cases hsz : bs ≤ (buf ++ [transform_for_pbi rec]).length
    · obtain ⟨B, hB⟩ := ih (fl ++ [buf ++ [transform_for_pbi rec]]) []
      refine ⟨B, ?_⟩
      simp only [mainPushAux]
      rw [if_pos hsz, if_pos (push_batch_snd_trueSink _), hB]
    · obtain ⟨B, hB⟩ := ih fl (buf ++ [transform_for_pbi rec])
      refine ⟨B, ?_⟩
      simp only [mainPushAux]
      rw [if_neg hsz, hB]

/-- If the run aborts, the failing sink call is on the exact buffer the
error carries: that buffer is non-empty, the sink rejected it, and it was
not cleared. -/
theorem mainPushAux_error_shape (sink : List PbiRow → Bool) (bs : Nat) :
    ∀ (recs : List JVal) (flushed : List (List PbiRow)) (buf : List PbiRow)
      (fl' : List (List PbiRow)) (buf' : List PbiRow),
      mainPushAux sink bs flushed buf recs = .error (fl', buf') →
      sink buf' = false ∧ buf' ≠ [] := by
  intro recs
  induction recs with
  | nil =>
    intro flushed buf fl' buf' hB
    by_cases hempty : buf.isEmpty = true
    · simp [mainPushAux, hempty] at hB
    · simp only [mainPushAux, if_neg hempty] at hB
      have hne : buf ≠ [] := fun h => hempty (by simp [h])
      by_cases hs : (push_batch_to_powerbi sink buf).2 = true
      · rw [if_pos hs] at hB
        exact absurd hB (by simp)
      · rw [if_neg hs] at hB
        have h2 : buf' = buf :=
          (congrArg Prod.snd (Except.error.inj hB)).symm
        rw [h2]
        rw [push_batch_snd_of_ne sink buf
          (Bool.not_eq_true _ ▸ hempty)] at hs
        exact ⟨by simpa using hs, hne⟩
  | cons rec rest ih =>
    intro flushed buf fl' buf' hB
    simp only [mainPushAux] at hB
    by_cases hsz : bs ≤ (buf ++ [transform_for_pbi rec]).length
    · rw [if_pos hsz] at hB
      by_cases hs :
          (push_batch_to_powerbi sink (buf ++ [transform_for_pbi rec])).2 = true
      · rw [if_pos hs] at hB
        exact ih _ [] fl' buf' hB
      · rw [if_neg hs] at hB
        have h2 : buf' = buf ++ [transform_for_pbi rec] :=
          (congrArg Prod.snd (Except.error.inj hB)).symm
        subst h2
        rw [push_batch_snd_of_ne sink (buf ++ [transform_for_pbi rec])
          (by simp)] at hs
        exact ⟨by simpa using hs, by simp⟩
    · rw [if_neg hsz] at hB
      exact ih flushed (buf ++ [transform_for_pbi rec]) fl' buf' hB

/-! ### Address-flattening helpers (for the spec's description of
`flatten_location`) -/

/-- A string-or-null JSON value, the shape the search endpoint uses for
address-line fields. -/
def strOrNull : Option String → JVal
  | none => .null
  | some s => .str s

/-- The spec's description of the `Address` field, stated from the spec's
words (not from the code): the comma-joined concatenation of the
non-empty line values, skipping empty ones, and null if all are empty. -/
def specAddress (s1 s2 s3 : Option String) : JVal :=
  let parts := ([s1, s2, s3].filterMap id).filter (fun s => s ≠ "")
  if parts.isEmpty then .null else .str (pyJoin ", " parts)

theorem filter_truthy_strOrNull (l : List (Option String)) :
    ((l.map strOrNull).filter JVal.truthy).map JVal.asString =
      (l.filterMap id).filter (fun s => decide (s ≠ "")) := by
  induction l with
  | nil => simp
  | cons o t ih =>
    rcases o with _ | s
    · simpa [strOrNull, JVal.truthy] using ih
    · by_cases hs : s = ""
      · subst hs
        simpa [strOrNull, JVal.truthy] using ih
      · -- a non-empty string head is kept on both sides
        simp [strOrNull, JVal.truthy, JVal.asString, hs, ih]

theorem pyJoin_ne_empty (l : List String) (hne : l ≠ [])
    (h : ∀ s ∈ l, s ≠ "") : pyJoin ", " l ≠ "" := by
  induction l with
  | nil => exact absurd rfl hne
  | cons a t ih =>
    rcases t with - | ⟨b, t⟩
    · simpa [pyJoin] using h a (by simp)
    · intro hcontra
      have hlen := congrArg String.length hcontra
      rw [show pyJoin ", " (a :: b :: t) = a ++ ", " ++ pyJoin ", " (b :: t)
        from rfl] at hlen
      simp [String.length_append] at hlen
      exact absurd hlen.1.2 (by decide)

/-- A list of distinct values each occurring in `m` is no longer than
`m.dedup`. -/
theorem nodup_length_le_dedup (l m : List JVal) (hl : l.Nodup)
    (hsub : ∀ k ∈ l, k ∈ m) : l.length ≤ m.dedup.length := by
  have h1 : l.toFinset.card = l.length := List.toFinset_card_of_nodup hl
  have h2 : m.toFinset.card = m.dedup.length := List.card_toFinset m
  have hsub2 : l.toFinset ⊆ m.toFinset := by
    intro x hx
    rw [List.mem_toFinset] at hx ⊢
    exact hsub x hx
  calc l.length = l.toFinset.card := h1.symm
    _ ≤ m.toFinset.card := Finset.card_le_card hsub2
    _ = m.dedup.length := h2

theorem get_obj_eq_null_of_find?_none (o : JObj) (k : String)
    (h : o.find? k = none) : (JVal.obj o).get k = .null := by
  simp [JVal.get, JVal.getD, h]

/-! ### Concrete fixtures for counterexamples and witnesses -/

/-- A raw record for recipient `R1` carrying name `A`. -/
def rNameA : JVal :=
  .obj (.cons "recipient_id" (.str "R1")
    (.cons "Recipient Name" (.str "A") .nil))

/-- A raw record for the same recipient `R1` carrying name `B`. -/
def rNameB : JVal :=
  .obj (.cons "recipient_id" (.str "R1")
    (.cons "Recipient Name" (.str "B") .nil))

/-- A raw record whose recipient id is present but the empty string. -/
def rEmptyId : JVal :=
  .obj (.cons "recipient_id" (.str "") .nil)

/-- Page environment: page 1 returns one record and `hasNext: false`,
every other page returns no results. -/
def envC2 : Nat → JVal := fun page =>
  if page = 1 then
    .obj (.cons "results" (.arr (.cons (.obj .nil) .nil))
      (.cons "page_metadata" (.obj (.cons "hasNext" (.bool false) .nil)) .nil))
  else .obj (.cons "results" (.arr .nil) .nil)

/-- Page environment: page 1 returns one record and `hasNext: true`,
every other page returns no results. -/
def envW : Nat → JVal := fun page =>
  if page = 1 then
    .obj (.cons "results" (.arr (.cons (.obj .nil) .nil))
      (.cons "page_metadata" (.obj (.cons "hasNext" (.bool true) .nil)) .nil))
  else .obj (.cons "results" (.arr .nil) .nil)

/-- The fields of a mapping whose "Recipient Location" value is a truthy
non-mapping (the string `"abc"`). -/
def rBadLocObj : JObj :=
  .cons "Recipient Location" (.str "abc") .nil

/-- A mapping whose "Recipient Location" value is a truthy non-mapping. -/
def rBadLoc : JVal :=
  .obj rBadLocObj

/-- A location object with address lines `"123 Main"`, `""`, `"Suite 4"`. -/
def locEx : JVal :=
  .obj (.cons "address_line1" (.str "123 Main")
    (.cons "address_line2" (.str "")
      (.cons "address_line3" (.str "Suite 4") .nil)))

/-! ### Claim C1 -/

/-- C1 is false on the code: the recipient merge writes
`incoming or current` for each field, so a later non-empty value
overwrites an earlier one.  Merging the fragment with name `"A"` and then
the fragment with name `"B"` for id `"R1"` leaves name `"B"`, not `"A"`
as the claim asserts. -/
theorem C1_counterexample :
    (lookupTab (.str "R1") (recipients_by_id [rNameA, rNameB])).map
      (fun r => r.RecipientName) = some (.str "B") ∧
    JVal.str "B" ≠ JVal.str "A" := by
  constructor
  · rfl
  · decide

/-- C1 (amended): in `recipients_by_id` each field of the merged record is
the incoming value whenever the incoming value is truthy (non-null,
non-empty) and the current value only otherwise — the last non-empty value
for a field wins, and an existing non-empty value is overwritten by a
later non-empty one.  In `agencies_by_code` and `subagencies_by_code`, a
fragment whose code is already present changes nothing at all (the first
fragment wins wholesale, with no field-level filling). -/
theorem C1_amended_policy :
    (∀ (tab : List (JVal × RecipientRec)) (rec : JVal),
      (rec.get "recipient_id").truthy = true →
      lookupTab (rec.get "recipient_id") (stepRecipient tab rec) =
        some
          { RecipientId := rec.get "recipient_id"
            RecipientName := if (rec.get "Recipient Name").truthy = true
              then rec.get "Recipient Name"
              else ((lookupTab (rec.get "recipient_id") tab).getD
                emptyRecipient).RecipientName
            Address := if (flatten_location (pyOr
                (rec.get "Recipient Location") (.obj .nil))).Address.truthy =
                  true
              then (flatten_location (pyOr (rec.get "Recipient Location")
                (.obj .nil))).Address
              else ((lookupTab (rec.get "recipient_id") tab).getD
                emptyRecipient).Address
            City := if (flatten_location (pyOr
                (rec.get "Recipient Location") (.obj .nil))).City.truthy = true
              then (flatten_location (pyOr (rec.get "Recipient Location")
                (.obj .nil))).City
              else ((lookupTab (rec.get "recipient_id") tab).getD
                emptyRecipient).City
            State := if (flatten_location (pyOr
                (rec.get "Recipient Location") (.obj .nil))).StateName.truthy =
                  true
              then (flatten_location (pyOr (rec.get "Recipient Location")
                (.obj .nil))).StateName
              else ((lookupTab (rec.get "recipient_id") tab).getD
                emptyRecipient).State
            Country := if (flatten_location (pyOr
                (rec.get "Recipient Location") (.obj .nil))).Country.truthy =
                  true
              then (flatten_location (pyOr (rec.get "Recipient Location")
                (.obj .nil))).Country
              else ((lookupTab (rec.get "recipient_id") tab).getD
                emptyRecipient).Country }) ∧
    (∀ (tab : List (JVal × AgencyRec)) (rec : JVal),
      (lookupTab (rec.get "Awarding Agency Code") tab).isSome = true →
      stepAgency tab rec = tab) ∧
    (∀ (tab : List (JVal × SubAgencyRec)) (rec : JVal),
      (lookupTab (rec.get "Awarding Sub Agency Code") tab).isSome = true →
      stepSubAgency tab rec = tab) := by
  refine ⟨fun tab rec h => ?_, fun tab rec h => ?_, fun tab rec h => ?_⟩
  · rw [lookupTab_stepRecipient tab rec h]
    rfl
  · by_cases hc : (rec.get "Awarding Agency Code").truthy = true
    · simp only [stepAgency]
      rw [if_neg (by simp [hc]), if_pos h]
    · simp [stepAgency, hc]
  · by_cases hc : (rec.get "Awarding Sub Agency Code").truthy = true
    · simp only [stepSubAgency]
      rw [if_neg (by simp [hc]), if_pos h]
    · simp [stepSubAgency, hc]

/-- Witness for the amended C1: merging the name-`"B"` fragment on top of
the table already holding name `"A"` for id `"R1"` stores name `"B"`, and
a sub-agency fragment for a code already present changes nothing. -/
theorem C1_amended_policy_witness :
    lookupTab (.str "R1")
        (stepRecipient (recipients_by_id [rNameA]) rNameB) =
      some
        { RecipientId := .str "R1", RecipientName := .str "B",
          Address := .null, City := .null, State := .null,
          Country := .null } ∧
    stepAgency [(JVal.str "123",
        { AwardingAgencyCode := .str "123", AwardingAgencyName := .null })]
      (.obj (.cons "Awarding Agency Code" (.str "123")
        (.cons "Awarding Agency" (.str "Dept") .nil))) =
      [(JVal.str "123",
        { AwardingAgencyCode := .str "123", AwardingAgencyName := .null })] :=
  ⟨C1_amended_policy.1 (recipients_by_id [rNameA]) rNameB (by decide),
   C1_amended_policy.2.1 _ _ (by decide)⟩

/-! ### Claim C5 -/

/-- C5 is false as stated: a record whose recipient id is the empty
string — a non-null natural id — produces no entry at all, because the
code drops every falsy id (`if not rid`), not only null/missing ones. -/
theorem C5_counterexample :
    recipients_by_id [rEmptyId] = [] ∧
    rEmptyId.get "recipient_id" = JVal.str "" ∧
    JVal.str "" ≠ JVal.null := by
  refine ⟨rfl, rfl, by decide⟩

/-- C5 (amended): after any sequence of records, each dimension table has
exactly one entry per distinct truthy (non-null and non-empty) natural id
seen in the input — its key list has no duplicates and contains precisely
the truthy ids — and its size is at most the number of distinct truthy
natural ids seen. -/
theorem C5_amended_dedup (rs : List JVal) :
    ((tabKeys (recipients_by_id rs)).Nodup ∧
      (∀ k, k ∈ tabKeys (recipients_by_id rs) ↔
        k.truthy = true ∧ k ∈ rs.map (fun r => r.get "recipient_id")) ∧
      (recipients_by_id rs).length ≤
        ((rs.map (fun r => r.get "recipient_id")).filter
          (fun v => v.truthy)).dedup.length) ∧
    ((tabKeys (agencies_by_code rs)).Nodup ∧
      (∀ k, k ∈ tabKeys (agencies_by_code rs) ↔
        k.truthy = true ∧
          k ∈ rs.map (fun r => r.get "Awarding Agency Code")) ∧
      (agencies_by_code rs).length ≤
        ((rs.map (fun r => r.get "Awarding Agency Code")).filter
          (fun v => v.truthy)).dedup.length) ∧
    ((tabKeys (subagencies_by_code rs)).Nodup ∧
      (∀ k, k ∈ tabKeys (subagencies_by_code rs) ↔
        k.truthy = true ∧
          k ∈ rs.map (fun r => r.get "Awarding Sub Agency Code")) ∧
      (subagencies_by_code rs).length ≤
        ((rs.map (fun r => r.get "Awarding Sub Agency Code")).filter
          (fun v => v.truthy)).dedup.length) := by
  obtain ⟨hr1, hr2⟩ := recipients_by_id_keys rs
  obtain ⟨ha1, ha2⟩ := agencies_by_code_keys rs
  obtain ⟨hs1, hs2⟩ := subagencies_by_code_keys rs
  refine ⟨⟨hr1, hr2, ?_⟩, ⟨ha1, ha2, ?_⟩, ⟨hs1, hs2, ?_⟩⟩
  · have hlen : (recipients_by_id rs).length =
        (tabKeys (recipients_by_id rs)).length := by simp [tabKeys]
    rw [hlen]
    refine nodup_length_le_dedup _ _ hr1 fun k hk => ?_
    obtain ⟨ht, hm⟩ := (hr2 k).mp hk
    exact List.mem_filter.mpr ⟨hm, ht⟩
  · have hlen : (agencies_by_code rs).length =
        (tabKeys (agencies_by_code rs)).length := by simp [tabKeys]
    rw [hlen]
    refine nodup_length_le_dedup _ _ ha1 fun k hk => ?_
    obtain ⟨ht, hm⟩ := (ha2 k).mp hk
    exact List.mem_filter.mpr ⟨hm, ht⟩
  · have hlen : (subagencies_by_code rs).length =
        (tabKeys (subagencies_by_code rs)).length := by simp [tabKeys]
    rw [hlen]
    refine nodup_length_le_dedup _ _ hs1 fun k hk => ?_
    obtain ⟨ht, hm⟩ := (hs2 k).mp hk
    exact List.mem_filter.mpr ⟨hm, ht⟩

/-! ### Claim C8 -/

/-- C8: merging the same record twice in succession leaves each of the
three dimension tables exactly as merging it once, for every table and
record. -/
theorem C8_merge_idempotent :
    (∀ (tab : List (JVal × RecipientRec)) (rec : JVal),
      stepRecipient (stepRecipient tab rec) rec = stepRecipient tab rec) ∧
    (∀ (tab : List (JVal × SubAgencyRec)) (rec : JVal),
      stepSubAgency (stepSubAgency tab rec) rec = stepSubAgency tab rec) ∧
    (∀ (tab : List (JVal × AgencyRec)) (rec : JVal),
      stepAgency (stepAgency tab rec) rec = stepAgency tab rec) :=
  ⟨stepRecipient_idem, stepSubAgency_idem, stepAgency_idem⟩

/-! ### Claim C2 -/

/-- C2 is false on the code: `iter_usaspending` (src/USAspendV1.py) checks
neither `hasNext` nor any page cap.  With page 1 returning one record and
`hasNext: false`, it still requests page 2, whereas the `fetch_and_model`
loop stops after page 1. -/
theorem C2_counterexample :
    (iter_usaspending envC2 5).2 = [1, 2] ∧
    (hasNextOf (envC2 1)).truthy = false ∧
    (fetchPages envC2 MAX_PAGES).2 = [1] := by
  refine ⟨rfl, rfl, rfl⟩

/-- C2 (amended): the claimed termination rule holds for the
`fetch_and_model` / `fetch_all_debug` page loop — page N+1 is requested
exactly when page N was requested, returned at least one record, its
metadata reported a truthy `hasNext`, and N is below the page cap — but
`iter_usaspending` requests page N+1 exactly when page N was requested
and returned at least one record, ignoring `hasNext` and with no page cap
(the fuel bound below only cuts off the otherwise unbounded loop). -/
theorem C2_amended_termination :
    (∀ (env : Nat → JVal) (cap p : Nat), 1 ≤ p →
      ((p + 1) ∈ (fetchPagesAux env 1 cap).2 ↔
        (p ∈ (fetchPagesAux env 1 cap).2 ∧ resultsOf (env p) ≠ [] ∧
          (hasNextOf (env p)).truthy = true ∧ p + 1 ≤ cap))) ∧
    (∀ (env : Nat → JVal) (fuel p : Nat), 1 ≤ p →
      ((p + 1) ∈ (iterPagesAux env 1 fuel).2 ↔
        (p ∈ (iterPagesAux env 1 fuel).2 ∧ resultsOf (env p) ≠ [] ∧
          p + 1 ≤ fuel))) := by
  constructor
  · intro env cap p hp
    rw [mem_fetchPagesAux, mem_fetchPagesAux]
    constructor
    · rintro ⟨h1, h2, hall⟩
      refine ⟨⟨by omega, by omega, fun r hr1 hr2 => hall r hr1 (by omega)⟩,
        (hall p hp (by omega)).1, (hall p hp (by omega)).2, by omega⟩
    · rintro ⟨⟨h1, h2, hall⟩, hres, hnext, hcap⟩
      refine ⟨by omega, by omega, fun r hr1 hr2 => ?_⟩
      rcases Nat.lt_or_ge r p with hr | hr
      · exact hall r hr1 hr
      · have : r = p := by omega
        subst this
        exact ⟨hres, hnext⟩
  · intro env fuel p hp
    rw [mem_iterPagesAux, mem_iterPagesAux]
    constructor
    · rintro ⟨h1, h2, hall⟩
      exact ⟨⟨by omega, by omega, fun r hr1 hr2 => hall r hr1 (by omega)⟩,
        hall p hp (by omega), by omega⟩
    · rintro ⟨⟨h1, h2, hall⟩, hres, hfuel⟩
      refine ⟨by omega, by omega, fun r hr1 hr2 => ?_⟩
      rcases Nat.lt_or_ge r p with hr | hr
      · exact hall r hr1 hr
      · have : r = p := by omega
        subst this
        exact hres

/-- Witness for the amended C2: with page 1 full and `hasNext: true`,
both loops do request page 2. -/
theorem C2_amended_termination_witness :
    (2 ∈ (fetchPagesAux envW 1 3).2 ↔
      (1 ∈ (fetchPagesAux envW 1 3).2 ∧ resultsOf (envW 1) ≠ [] ∧
        (hasNextOf (envW 1)).truthy = true ∧ 2 ≤ 3)) ∧
    (2 ∈ (iterPagesAux envW 1 3).2 ↔
      (1 ∈ (iterPagesAux envW 1 3).2 ∧ resultsOf (envW 1) ≠ [] ∧
        2 ≤ 3)) :=
  ⟨C2_amended_termination.1 envW 3 1 (by decide),
   C2_amended_termination.2 envW 3 1 (by decide)⟩

/-! ### Claim C4 -/

/-- C4: fact-row conservation.  The `fetch_and_model` fact rows are
exactly one row per raw record, in arrival order across the fetched
pages, and their count is the sum of the result counts of the pages
actually fetched; the same holds for `fetch_all_debug`'s transformed
rows. -/
theorem C4_fact_row_conservation (env : Nat → JVal) :
    (fact_awards (fetchPages env MAX_PAGES).1 =
      (((fetchPages env MAX_PAGES).2.map
        (fun p => resultsOf (env p))).flatten).map mkFactAward) ∧
    ((fact_awards (fetchPages env MAX_PAGES).1).length =
      ((fetchPages env MAX_PAGES).2.map
        (fun p => (resultsOf (env p)).length)).sum) ∧
    ((fetch_all_debug env).2.1 =
      (fetch_all_debug env).1.map transform_for_powerbi) ∧
    ((fetch_all_debug env).1 =
      ((fetch_all_debug env).2.2.map (fun p => resultsOf (env p))).flatten) ∧
    (((fetch_all_debug env).2.1).length =
      ((fetch_all_debug env).2.2.map
        (fun p => (resultsOf (env p)).length)).sum) := by
  have hfst := fetchPagesAux_fst env MAX_PAGES 1
  have hdbg := fetchAllDebugAux_eq env MAX_PAGES 1
  refine ⟨?_, ?_, ?_, ?_, ?_⟩
  · rw [fact_awards, fetchPages, hfst]
  · rw [fact_awards, fetchPages, hfst]
    rw [List.length_map, List.length_flatten, List.map_map]
    refine congrArg List.sum (List.map_congr_left fun p hp => ?_)
    simp
  · rw [fetch_all_debug, hdbg]
  · rw [fetch_all_debug, hdbg]
    exact hfst
  · rw [fetch_all_debug, hdbg]
    rw [hfst]
    rw [List.length_map, List.length_flatten, List.map_map]
    refine congrArg List.sum (List.map_congr_left fun p hp => ?_)
    simp

/-! ### Claim C6 -/

/-- C6: a record whose natural id for a dimension is null (or missing,
which `dict.get` also reports as null) creates no entry in that dimension
table, no table ever holds an entry keyed by null, and every record —
including one with a null id — still contributes exactly its own fact
row. -/
theorem C6_null_id_omission :
    (∀ (tab : List (JVal × RecipientRec)) (rec : JVal),
      rec.get "recipient_id" = JVal.null → stepRecipient tab rec = tab) ∧
    (∀ (tab : List (JVal × AgencyRec)) (rec : JVal),
      rec.get "Awarding Agency Code" = JVal.null → stepAgency tab rec = tab) ∧
    (∀ (tab : List (JVal × SubAgencyRec)) (rec : JVal),
      rec.get "Awarding Sub Agency Code" = JVal.null →
        stepSubAgency tab rec = tab) ∧
    (∀ rs : List JVal,
      JVal.null ∉ tabKeys (recipients_by_id rs) ∧
      JVal.null ∉ tabKeys (agencies_by_code rs) ∧
      JVal.null ∉ tabKeys (subagencies_by_code rs)) ∧
    (∀ (raws : List JVal) (rec : JVal),
      fact_awards (raws ++ [rec]) = fact_awards raws ++ [mkFactAward rec]) := by
  refine ⟨fun tab rec h => ?_, fun tab rec h => ?_, fun tab rec h => ?_,
    fun rs => ⟨?_, ?_, ?_⟩, fun raws rec => ?_⟩
  · simp [stepRecipient, h, JVal.truthy]
  · simp [stepAgency, h, JVal.truthy]
  · simp [stepSubAgency, h, JVal.truthy]
  · intro hmem
    have := ((recipients_by_id_keys rs).2 JVal.null).mp hmem
    simp [JVal.truthy] at this
  · intro hmem
    have := ((agencies_by_code_keys rs).2 JVal.null).mp hmem
    simp [JVal.truthy] at this
  · intro hmem
    have := ((subagencies_by_code_keys rs).2 JVal.null).mp hmem
    simp [JVal.truthy] at this
  · simp [fact_awards]

/-- Witness for C6: a record with no fields has null ids everywhere, so
merging it changes none of the three tables, while it still produces its
fact row. -/
theorem C6_null_id_omission_witness :
    stepRecipient [] (.obj .nil) = [] ∧
    stepAgency [] (.obj .nil) = [] ∧
    stepSubAgency [] (.obj .nil) = [] ∧
    fact_awards ([rNameA] ++ [.obj .nil]) =
      fact_awards [rNameA] ++ [mkFactAward (.obj .nil)] :=
  ⟨C6_null_id_omission.1 [] (.obj .nil) rfl,
   C6_null_id_omission.2.1 [] (.obj .nil) rfl,
   C6_null_id_omission.2.2.1 [] (.obj .nil) rfl,
   C6_null_id_omission.2.2.2.2 [rNameA] (.obj .nil)⟩

/-! ### Claim C7 -/

/-- C7: for a falsy location (null or the empty dict) every flattened
field is null; for a truthy location whose three address-line fields are
strings or null, `Address` is the `", "`-joined concatenation of the
non-empty lines (null when all are empty, as `specAddress` states from
the spec's words), and the remaining fields pass straight through. -/
theorem C7_flatten_location (loc : JVal) :
    (loc.truthy = false →
      flatten_location loc =
        { Address := .null, City := .null, StateName := .null,
          StateCode := .null, Country := .null }) ∧
    (∀ (s1 s2 s3 : Option String), loc.truthy = true →
      loc.get "address_line1" = strOrNull s1 →
      loc.get "address_line2" = strOrNull s2 →
      loc.get "address_line3" = strOrNull s3 →
      (flatten_location loc).Address = specAddress s1 s2 s3 ∧
      (flatten_location loc).City = loc.get "city_name" ∧
      (flatten_location loc).StateName = loc.get "state_name" ∧
      (flatten_location loc).StateCode = loc.get "state_code" ∧
      (flatten_location loc).Country = loc.get "country_name") := by
  constructor
  · intro h
    simp [flatten_location, h]
  · intro s1 s2 s3 ht h1 h2 h3
    have hunf : flatten_location loc =
        { Address := pyOr (.str (pyJoin ", "
            (([loc.get "address_line1", loc.get "address_line2",
               loc.get "address_line3"].filter JVal.truthy).map
              JVal.asString))) .null
          City := loc.get "city_name"
          StateName := loc.get "state_name"
          StateCode := loc.get "state_code"
          Country := loc.get "country_name" } := by
      simp only [flatten_location]
      rw [if_neg (by simp [ht])]
    rw [hunf]
    refine ⟨?_, rfl, rfl, rfl, rfl⟩
    rw [h1, h2, h3]
    have hparts : (([strOrNull s1, strOrNull s2,
        strOrNull s3].filter JVal.truthy).map JVal.asString) =
        ([s1, s2, s3].filterMap id).filter (fun s => decide (s ≠ "")) := by
      simpa using filter_truthy_strOrNull [s1, s2, s3]
    rw [hparts]
    simp only [specAddress]
    rcases hp : ([s1, s2, s3].filterMap id).filter
        (fun s => decide (s ≠ "")) with _ | ⟨a, t⟩
    · simp [pyOr, JVal.truthy, pyJoin]
    · have hne : pyJoin ", " (a :: t) ≠ "" := by
        refine pyJoin_ne_empty (a :: t) (by simp) fun s hs => ?_
        have : s ∈ ([s1, s2, s3].filterMap id).filter
            (fun s => decide (s ≠ "")) := hp ▸ hs
        simpa using (List.mem_filter.mp this).2
      simp [pyOr, JVal.truthy, hne]

/-- Witness for C7: the claim's own example — lines
`["123 Main", "", "Suite 4"]` flatten to `"123 Main, Suite 4"`. -/
theorem C7_flatten_location_witness :
    (flatten_location locEx).Address =
      specAddress (some "123 Main") (some "") (some "Suite 4") ∧
    specAddress (some "123 Main") (some "") (some "Suite 4") =
      .str "123 Main, Suite 4" :=
  ⟨((C7_flatten_location locEx).2 (some "123 Main") (some "")
      (some "Suite 4") rfl rfl rfl rfl).1,
   by decide⟩

/-! ### Claim C3 -/

/-- C3: with a positive batch size, a fully successful push run flushes a
sequence of batches of exactly `bs` rows each (each flush fired when the
buffer reached `bs`), followed by at most one final non-empty remainder
batch of fewer than `bs` rows; together the batches carry every
normalized row exactly once in order, every delivered batch is non-empty
and within the batch size, and if any sink call fails the run stops with
that exact buffer rejected and not cleared. -/
theorem C3_batch_flushing (bs : Nat) (recs : List JVal) (hbs : 0 < bs) :
    (∃ tail rem,
      mainPushAux trueSink bs [] [] recs =
        .ok (tail ++ (if rem = ([] : List PbiRow) then [] else [rem])) ∧
      (tail ++ (if rem = ([] : List PbiRow) then [] else [rem])).flatten =
        recs.map transform_for_pbi ∧
      (∀ b ∈ tail, b.length = bs) ∧ rem.length < bs ∧
      (∀ b ∈ tail ++ (if rem = ([] : List PbiRow) then [] else [rem]),
        b ≠ [] ∧ b.length ≤ bs)) ∧
    (∀ (sink : List PbiRow → Bool) (fl' : List (List PbiRow))
      (buf' : List PbiRow),
      mainPushAux sink bs [] [] recs = .error (fl', buf') →
      sink buf' = false ∧ buf' ≠ []) := by
  constructor
  · obtain ⟨B, hB⟩ := mainPushAux_trueSink_ok bs recs [] []
    obtain ⟨tail, rem, hb1, hb2, hb3, hb4⟩ :=
      mainPushAux_ok_shape trueSink bs recs [] []
        (by simpa using hbs) B hB
    refine ⟨tail, rem, ?_, ?_, hb3, hb4, ?_⟩
    · rw [hB, hb1]
      simp
    · simpa using hb2
    · intro b hb
      rcases List.mem_append.mp hb with h | h
      · refine ⟨fun hbe => ?_, le_of_eq (hb3 b h)⟩
        subst hbe
        have h0 := hb3 [] h
        simp at h0
        omega
      · by_cases hr : rem = []
        · rw [if_pos hr] at h
          simp at h
        · rw [if_neg hr] at h
          have hbr : b = rem := by simpa using h
          subst hbr
          exact ⟨hr, le_of_lt hb4⟩
  · intro sink fl' buf' hB
    exact mainPushAux_error_shape sink bs recs [] [] fl' buf' hB

/-- Witness for C3 at batch size 2 with three records: two full batches
of sizes 2 and 1 on the all-success run, and a failing sink rejects the
exact two-row buffer. -/
theorem C3_batch_flushing_witness :
    0 < 2 ∧
    (∃ tail rem,
      mainPushAux trueSink 2 [] [] [rNameA, rNameB, rEmptyId] =
        .ok (tail ++ (if rem = ([] : List PbiRow) then [] else [rem])) ∧
      (tail ++ (if rem = ([] : List PbiRow) then [] else [rem])).flatten =
        [rNameA, rNameB, rEmptyId].map transform_for_pbi ∧
      (∀ b ∈ tail, b.length = 2) ∧ rem.length < 2 ∧
      (∀ b ∈ tail ++ (if rem = ([] : List PbiRow) then [] else [rem]),
        b ≠ [] ∧ b.length ≤ 2)) ∧
    ((fun _ => false) [transform_for_pbi rNameA, transform_for_pbi rNameB] =
        false ∧
      [transform_for_pbi rNameA, transform_for_pbi rNameB] ≠ []) :=
  ⟨by decide,
   (C3_batch_flushing 2 [rNameA, rNameB, rEmptyId] (by decide)).1,
   (C3_batch_flushing 2 [rNameA, rNameB, rEmptyId] (by decide)).2
     (fun _ => false) []
     [transform_for_pbi rNameA, transform_for_pbi rNameB] rfl⟩

/-! ### Claim C9 -/

/-- C9 is false as stated: on the mapping
`{"Recipient Location": "abc"}` — whose location value is truthy but not
a mapping — `transform_for_powerbi` raises `AttributeError` at
`loc.get(...)` (src/Test.py line 102), so the record-to-row transform is
not a never-failing function of arbitrary mappings. -/
theorem C9_counterexample :
    transform_for_powerbi_checked rBadLoc = none ∧
    (rBadLoc.get "Recipient Location").truthy = true :=
  ⟨rfl, rfl⟩

/-- C9 (amended): `transform_for_pbi` is a pure total function on every
mapping, with every absent field defaulting to null.
`transform_for_powerbi` never fails on a mapping whose
"Recipient Location" value is itself a mapping or is falsy — there it
returns its row, with every absent field (including the nested location
fields) defaulting to null — but on a mapping whose location value is
truthy and not a mapping it raises `AttributeError` (the `none` of the
checked model). -/
theorem C9_amended_normalizer (o : JObj) :
    ((o.find? "Award ID" = none →
        (transform_for_pbi (.obj o)).AwardId = JVal.null) ∧
      (o.find? "Recipient Name" = none →
        (transform_for_pbi (.obj o)).RecipientName = JVal.null) ∧
      (o.find? "Award Amount" = none →
        (transform_for_pbi (.obj o)).AwardAmount = JVal.null) ∧
      (o.find? "Awarding Agency" = none →
        (transform_for_pbi (.obj o)).AwardingAgency = JVal.null) ∧
      (o.find? "Awarding Sub Agency" = none →
        (transform_for_pbi (.obj o)).AwardingSubAgency = JVal.null) ∧
      (o.find? "Funding Agency" = none →
        (transform_for_pbi (.obj o)).FundingAgency = JVal.null) ∧
      (o.find? "Funding Sub Agency" = none →
        (transform_for_pbi (.obj o)).FundingSubAgency = JVal.null) ∧
      (o.find? "Start Date" = none →
        (transform_for_pbi (.obj o)).StartDate = JVal.null) ∧
      (o.find? "End Date" = none →
        (transform_for_pbi (.obj o)).EndDate = JVal.null)) ∧
    ((∀ o2 : JObj, (JVal.obj o).get "Recipient Location" = .obj o2 →
        transform_for_powerbi_checked (.obj o) =
          some (transform_for_powerbi (.obj o))) ∧
      (((JVal.obj o).get "Recipient Location").truthy = false →
        transform_for_powerbi_checked (.obj o) =
          some (transform_for_powerbi (.obj o))) ∧
      (((JVal.obj o).get "Recipient Location").truthy = true →
        (∀ o2 : JObj, (JVal.obj o).get "Recipient Location" ≠ .obj o2) →
        transform_for_powerbi_checked (.obj o) = none)) ∧
    ((o.find? "Award ID" = none →
        (transform_for_powerbi (.obj o)).AwardId = JVal.null) ∧
      (o.find? "Recipient Name" = none →
        (transform_for_powerbi (.obj o)).RecipientName = JVal.null) ∧
      (o.find? "Award Amount" = none →
        (transform_for_powerbi (.obj o)).AwardAmount = JVal.null) ∧
      (o.find? "Awarding Agency" = none →
        (transform_for_powerbi (.obj o)).AwardingAgency = JVal.null) ∧
      (o.find? "Awarding Sub Agency" = none →
        (transform_for_powerbi (.obj o)).AwardingSubAgency = JVal.null) ∧
      (o.find? "Funding Agency" = none →
        (transform_for_powerbi (.obj o)).FundingAgency = JVal.null) ∧
      (o.find? "Funding Sub Agency" = none →
        (transform_for_powerbi (.obj o)).FundingSubAgency = JVal.null) ∧
      (o.find? "Start Date" = none →
        (transform_for_powerbi (.obj o)).StartDate = JVal.null) ∧
      (o.find? "End Date" = none →
        (transform_for_powerbi (.obj o)).EndDate = JVal.null)) ∧
    (o.find? "Recipient Location" = none →
      (transform_for_powerbi (.obj o)).RecipientState = JVal.null ∧
      (transform_for_powerbi (.obj o)).RecipientCity = JVal.null ∧
      (transform_for_powerbi (.obj o)).RecipientCountry = JVal.null) := by
  refine ⟨⟨?_, ?_, ?_, ?_, ?_, ?_, ?_, ?_, ?_⟩, ⟨?_, ?_, ?_⟩,
    ⟨?_, ?_, ?_, ?_, ?_, ?_, ?_, ?_, ?_⟩, ?_⟩
  all_goals try (intro h; exact get_obj_eq_null_of_find?_none o _ h)
  · intro o2 h2
    rcases o2 with _ | ⟨k, v, t⟩
    · have hloc : pyOr ((JVal.obj o).get "Recipient Location") (.obj .nil) =
          .obj .nil := by
        simp [pyOr, h2, JVal.truthy]
      simp only [transform_for_powerbi_checked, transform_for_powerbi]
      rw [hloc]
      simp [JVal.getAttr?, JVal.get, JVal.getD]
    · have hloc : pyOr ((JVal.obj o).get "Recipient Location") (.obj .nil) =
          .obj (.cons k v t) := by
        simp [pyOr, h2, JVal.truthy]
      simp only [transform_for_powerbi_checked, transform_for_powerbi]
      rw [hloc]
      simp [JVal.getAttr?, JVal.get, JVal.getD]
  · intro h2
    have hloc : pyOr ((JVal.obj o).get "Recipient Location") (.obj .nil) =
        .obj .nil := by
      simp [pyOr, h2]
    simp only [transform_for_powerbi_checked, transform_for_powerbi]
    rw [hloc]
    simp [JVal.getAttr?, JVal.get, JVal.getD]
  · intro ht hno
    rcases hval : (JVal.obj o).get "Recipient Location" with
      _ | b | n | s | a | o2
    · rw [hval] at ht
      simp [JVal.truthy] at ht
    · have ht2 := ht
      rw [hval] at ht2
      have hloc : pyOr ((JVal.obj o).get "Recipient Location") (.obj .nil) =
          .bool b := by
        rw [hval]
        simp [pyOr, ht2]
      simp only [transform_for_powerbi_checked]
      rw [hloc]
      simp [JVal.getAttr?]
    · have ht2 := ht
      rw [hval] at ht2
      have hloc : pyOr ((JVal.obj o).get "Recipient Location") (.obj .nil) =
          .num n := by
        rw [hval]
        simp [pyOr, ht2]
      simp only [transform_for_powerbi_checked]
      rw [hloc]
      simp [JVal.getAttr?]
    · have ht2 := ht
      rw [hval] at ht2
      have hloc : pyOr ((JVal.obj o).get "Recipient Location") (.obj .nil) =
          .str s := by
        rw [hval]
        simp [pyOr, ht2]
      simp only [transform_for_powerbi_checked]
      rw [hloc]
      simp [JVal.getAttr?]
    · have ht2 := ht
      rw [hval] at ht2
      have hloc : pyOr ((JVal.obj o).get "Recipient Location") (.obj .nil) =
          .arr a := by
        rw [hval]
        simp [pyOr, ht2]
      simp only [transform_for_powerbi_checked]
      rw [hloc]
      simp [JVal.getAttr?]
    · exact absurd hval (hno o2)
  · intro h
    refine ⟨?_, ?_, ?_⟩ <;>
      simp [transform_for_powerbi, pyOr, JVal.truthy, JVal.get, JVal.getD,
        JObj.find?, h]

/-- Witness for the amended C9: the empty record transforms totally with
null fields under both transforms, while the bad-location record makes
the checked `transform_for_powerbi` fail. -/
theorem C9_amended_normalizer_witness :
    (transform_for_pbi (.obj .nil)).AwardId = JVal.null ∧
    transform_for_powerbi_checked (.obj .nil) =
      some (transform_for_powerbi (.obj .nil)) ∧
    (transform_for_powerbi (.obj .nil)).RecipientState = JVal.null ∧
    transform_for_powerbi_checked (.obj rBadLocObj) = none :=
  ⟨(C9_amended_normalizer .nil).1.1 rfl,
   (C9_amended_normalizer .nil).2.1.2.1 rfl,
   ((C9_amended_normalizer .nil).2.2.2 rfl).1,
   (C9_amended_normalizer rBadLocObj).2.1.2.2 rfl
     (fun _ h => nomatch h)⟩

/-! ### Claim C10 -/

/-- C10: pushing an empty row sequence returns immediately without
issuing any request (and a non-empty push issues exactly one request
carrying those rows); a run over zero records delivers nothing to the
sink; and no successful run ever delivers an empty batch, so an empty
final residual buffer is never written. -/
theorem C10_empty_push_noop :
    (∀ sink : List PbiRow → Bool, push_batch_to_powerbi sink [] = ([], true)) ∧
    (∀ (sink : List PbiRow → Bool) (rows : List PbiRow), rows ≠ [] →
      push_batch_to_powerbi sink rows = ([rows], sink rows)) ∧
    (∀ (sink : List PbiRow → Bool) (bs : Nat),
      mainPushAux sink bs [] [] [] = .ok []) ∧
    (∀ (bs : Nat) (recs : List JVal) (B : List (List PbiRow)), 0 < bs →
      mainPushAux trueSink bs [] [] recs = .ok B →
      ([] : List PbiRow) ∉ B) := by
  refine ⟨fun sink => rfl, fun sink rows h => ?_, fun sink bs => rfl, ?_⟩
  · simp [push_batch_to_powerbi, h]
  · intro bs recs B hbs hB hmem
    obtain ⟨tail, rem, hb1, hb2, hb3, hb4⟩ :=
      mainPushAux_ok_shape trueSink bs recs [] []
        (by simpa using hbs) B hB
    rw [hb1, List.nil_append] at hmem
    rcases List.mem_append.mp hmem with h | h
    · have h0 := hb3 [] h
      simp at h0
      omega
    · by_cases hr : rem = []
      · rw [if_pos hr] at h
        simp at h
      · rw [if_neg hr] at h
        have hbr : ([] : List PbiRow) = rem := by simpa using h
        exact hr hbr.symm

/-- Witness for C10: a one-row push issues exactly one request, and the
one-record run delivers only the non-empty one-row batch. -/
theorem C10_empty_push_noop_witness :
    push_batch_to_powerbi trueSink [transform_for_pbi rNameA] =
      ([[transform_for_pbi rNameA]], true) ∧
    ([] : List PbiRow) ∉ [[transform_for_pbi rNameA]] :=
  ⟨C10_empty_push_noop.2.1 trueSink [transform_for_pbi rNameA] (by simp),
   C10_empty_push_noop.2.2.2 1 [rNameA] [[transform_for_pbi rNameA]]
     (by decide) rfl⟩

end USASpend
